import Mathlib

/-!
Shallow embedding of the mqpkg package-manager core (crates `mqpkg` and
`mqp`), covering the identifier model (`src/mqpkg/src/lib.rs`), the
transactional package database (`src/mqpkg/src/pkgdb/mod.rs`), and the
repository fetcher / candidate aggregator (`src/mqpkg/src/repository.rs`).

Rust characters are embedded as their Unicode scalar values (`Nat`), and
Rust strings as `List Nat`.  External libraries (serde_yaml, serde_json,
reqwest, vfs) are embedded as parameters/oracles at the call boundary.
-/

namespace Mqpkg

/-- Rust `char::is_ascii_alphabetic`: `'A'..='Z' | 'a'..='z'`. -/
def isAsciiAlphabetic (c : Nat) : Bool :=
  (65 ≤ c && c ≤ 90) || (97 ≤ c && c ≤ 122)

/-- Rust `char::is_ascii_alphanumeric`: `'0'..='9' | 'A'..='Z' | 'a'..='z'`. -/
def isAsciiAlphanumeric (c : Nat) : Bool :=
  isAsciiAlphabetic c || (48 ≤ c && c ≤ 57)

/-- Rust `char::to_ascii_lowercase`: maps `'A'..='Z'` to the corresponding
lowercase letter and leaves every other character unchanged. -/
def toAsciiLowercase (c : Nat) : Nat :=
  if 65 ≤ c ∧ c ≤ 90 then c + 32 else c

/-- Rust `str::to_ascii_lowercase`, character-wise. -/
def strToAsciiLowercase (s : List Nat) : List Nat :=
  s.map toAsciiLowercase

/-- `PackageNameError` from `src/mqpkg/src/lib.rs`.  `NoStartingAlpha` and
`InvalidCharacter` carry the offending input and the offending character
rendered as a string (`c.to_string()`). -/
inductive PackageNameError where
  | TooShort : PackageNameError
  | NoStartingAlpha (name : List Nat) (character : List Nat) : PackageNameError
  | InvalidCharacter (name : List Nat) (character : List Nat) : PackageNameError
deriving DecidableEq, Repr

/-- `PackageName` from `src/mqpkg/src/lib.rs`: a newtype over the validated,
case-folded identifier string. -/
structure PackageName where
  name : List Nat
deriving DecidableEq, Repr

/-- Rust `str::starts_with(pred)`: true iff the string is non-empty and its
first character satisfies the predicate. -/
def startsWith (p : Nat → Bool) (s : List Nat) : Bool :=
  match s with
  | [] => false
  | c :: _ => p c

/-- `<PackageName as FromStr>::from_str` from `src/mqpkg/src/lib.rs`:
rejects an empty input (`TooShort`), an input whose first character is not
ASCII-alphabetic (`NoStartingAlpha`, carrying that character), and an input
containing any non-ASCII-alphanumeric character (`InvalidCharacter`,
carrying the first such character); otherwise returns the
ASCII-lowercased input wrapped in `PackageName`. -/
def PackageName.fromStr (value : List Nat) : Except PackageNameError PackageName :=
  if !(startsWith isAsciiAlphabetic value) then
    match value.head? with
    | some c => .error (.NoStartingAlpha value [c])
    | none => .error .TooShort
  else
    match value.find? (fun c => !(isAsciiAlphanumeric c)) with
    | some c => .error (.InvalidCharacter value [c])
    | none => .ok ⟨strToAsciiLowercase value⟩

/-! ## Transactional package database (`src/mqpkg/src/pkgdb/mod.rs`) -/

/-- `semver::VersionReq`: a version-constraint expression, inert to every
claim here, embedded as its textual form. -/
abbrev VersionReq := List Nat

/-- `PackageRequest` from `src/mqpkg/src/pkgdb/mod.rs`. -/
structure PackageRequest where
  name : PackageName
  version : VersionReq
deriving DecidableEq, Repr

/-- `PackageSpecifier` from `types.rs` (not under `src/`); the two fields
read by `Database::add` (`package.name`, `package.version`). -/
structure PackageSpecifier where
  name : PackageName
  version : VersionReq
deriving DecidableEq, Repr

/-- `std::collections::HashMap::insert` on the `requested` map: replaces the
value of an existing key, otherwise adds the entry.  The association list is
a deterministic representative of the unordered map (none of the claims
depends on iteration order). -/
def insertReq (m : List (PackageName × PackageRequest)) (k : PackageName)
    (v : PackageRequest) : List (PackageName × PackageRequest) :=
  match m with
  | [] => [(k, v)]
  | (k', v') :: rest =>
    if k' = k then (k, v) :: rest else (k', v') :: insertReq rest k v

/-- `HashMap::get` on the `requested` map. -/
def lookupReq (m : List (PackageName × PackageRequest)) (k : PackageName) :
    Option PackageRequest :=
  match m with
  | [] => none
  | (k', v') :: rest => if k' = k then some v' else lookupReq rest k

/-- `State` from `src/mqpkg/src/pkgdb/mod.rs`: the persisted record, a map
from `PackageName` to `PackageRequest`.  `Default` gives the empty map. -/
structure State where
  requested : List (PackageName × PackageRequest)
deriving DecidableEq, Repr

/-- `DBError` from `errors.rs` (not under `src/`).  `NoTransaction` and
`InvalidState` appear explicitly in `pkgdb/mod.rs`.  `FsError` models the
variant produced by the `?`-operator's `From<VfsError>` conversion on
filesystem failures; it is necessarily distinct from `InvalidState`, whose
payload is a `serde_yaml::Error` (see the `map_err` in `State::load`).
`LockError` is modelled from the spec: the failure of `begin` when the lock
is held (`pkgdb/transactions.rs` is not under `src/`).  Payloads dropped. -/
inductive DBError where
  | NoTransaction : DBError
  | InvalidState : DBError
  | FsError : DBError
  | LockError : DBError
deriving DecidableEq, Repr

/-- Status of the `pkgdb/state.yml` file in the virtual filesystem:
absent, present but failing to open (`open_file` errors), or present with
the given serialized content. -/
inductive FileStatus where
  | absent : FileStatus
  | unreadable : FileStatus
  | content (s : List Nat) : FileStatus
deriving DecidableEq, Repr

/-- The slice of the `vfs::VfsPath` filesystem the database touches:
whether the `pkgdb` directory exists, and the state file's status. -/
structure VFS where
  pkgdbDir : Bool
  stateFile : FileStatus
deriving DecidableEq, Repr

/-- `ensure_dir` from `src/mqpkg/src/pkgdb/mod.rs`: creates the `pkgdb`
directory if it is not already a directory. -/
def ensureDir (fs : VFS) : VFS :=
  if fs.pkgdbDir then fs else { fs with pkgdbDir := true }

/-- The type of the `serde_yaml::from_reader` oracle deserializing a state
document (external library, embedded as a parameter; its error payload is
inert). -/
abbrev YamlParser := List Nat → Except Unit State

/-- `State::load` from `src/mqpkg/src/pkgdb/mod.rs`: if the state file
exists, parse it, mapping a parse failure to `DBError::InvalidState` and
propagating an open failure; otherwise fall back to `State::default()`. -/
def State.load (parse : YamlParser) (fs : VFS) : Except DBError State :=
  match fs.stateFile with
  | .absent => .ok ⟨[]⟩
  | .unreadable => .error .FsError
  | .content s =>
    match parse s with
    | .ok st => .ok st
    | .error _ => .error .InvalidState

/-- Outcome of the `serde_yaml::to_writer` call in `State::save`, as an
oracle: either the full serialized document `s` was written, or
serialization/IO failed after writing the prefix `p` of the output.  In
`complete s`, `s` stands for the YAML rendering of the saved `State`. -/
inductive WriteOutcome where
  | complete (s : List Nat) : WriteOutcome
  | failedAfter (p : List Nat) : WriteOutcome
deriving DecidableEq, Repr

/-- `State::save` from `src/mqpkg/src/pkgdb/mod.rs`: ensures the `pkgdb`
directory exists, then `filename.create_file()?` creates-or-truncates
`state.yml` in place, then `serde_yaml::to_writer` writes into it, a
failure being mapped to `DBError::InvalidState`.  There is no
write-to-temporary or rename step. -/
def State.save (_self : State) (w : WriteOutcome) (fs : VFS) :
    Except DBError Unit × VFS :=
  let fs1 := ensureDir fs
  let fs2 := { fs1 with stateFile := .content [] }
  match w with
  | .complete s => (.ok (), { fs2 with stateFile := .content s })
  | .failedAfter p => (.error .InvalidState, { fs2 with stateFile := .content p })

/-- `Database` from `src/mqpkg/src/pkgdb/mod.rs`: identity string and the
lazily loaded in-memory state (`state: Option<State>`).  The `fs` handle is
carried in `Sys`. -/
structure Database where
  id : List Nat
  state : Option State
deriving DecidableEq, Repr

/-- The whole system a `Database` interacts with: the database value, the
filesystem, and the transaction lock for the database's identity.  The lock
is modelled from the spec (`pkgdb/transactions.rs` is not under `src/`):
§4.5, one exclusive transaction at a time per database identity. -/
structure Sys where
  db : Database
  fs : VFS
  lock : Bool
deriving DecidableEq, Repr

/-- Modelled from the spec: the body of `Database::in_transaction`
(`self.transaction()?.is_active()?`) queries `TransactionManager::is_active`
in the missing `pkgdb/transactions.rs`, which per §4.5 reports whether a
transaction is active for the database's identity, i.e. whether the lock
is held. -/
def Sys.inTransaction (sys : Sys) : Bool := sys.lock

/-- `Database::state` (the private accessor) from
`src/mqpkg/src/pkgdb/mod.rs`: if a transaction is active and the in-memory
state is `None`, load it from disk; then return the in-memory state, or
`DBError::NoTransaction` if it is still `None`. -/
def Sys.stateFn (parse : YamlParser) (sys : Sys) : Except DBError (State × Sys) :=
  if sys.inTransaction ∧ sys.db.state = none then
    match State.load parse sys.fs with
    | .error e => .error e
    | .ok st => .ok (st, { sys with db := { sys.db with state := some st } })
  else
    match sys.db.state with
    | some st => .ok (st, sys)
    | none => .error .NoTransaction

/-- `Database::add` from `src/mqpkg/src/pkgdb/mod.rs`: obtains the state via
`self.state()?` and inserts `PackageRequest { name, version }` under the
package's name. -/
def Sys.add (parse : YamlParser) (package : PackageSpecifier) (sys : Sys) :
    Except DBError Sys :=
  match sys.stateFn parse with
  | .error e => .error e
  | .ok (st, sys') =>
    .ok { sys' with db := { sys'.db with
      state := some ⟨insertReq st.requested package.name
        ⟨package.name, package.version⟩⟩ } }

/-- `Database::requested` from `src/mqpkg/src/pkgdb/mod.rs`:
`Ok(&self.state()?.requested)`. -/
def Sys.requested (parse : YamlParser) (sys : Sys) :
    Except DBError (List (PackageName × PackageRequest) × Sys) :=
  match sys.stateFn parse with
  | .error e => .error e
  | .ok (st, sys') => .ok (st.requested, sys')

/-- Modelled from the spec: `Database::begin` / `TransactionManager::begin`
(`pkgdb/transactions.rs` is not under `src/`).  §4.5: begin acquires
exclusive ownership of the lock and marks the transaction active; a second
`begin` while one is active fails (the fail-fast policy choice of §5). -/
def Sys.begin (sys : Sys) : Except DBError Sys :=
  if sys.lock then .error .LockError else .ok { sys with lock := true }

/-- Modelled from the spec: dropping a `Transaction` without commit
(`pkgdb/transactions.rs` is not under `src/`).  §4.5: the handle's release
"always clears the lock".  Note the drop touches only the lock: the cached
`state` is a field of `Database`, not of `Transaction`, and nothing in
`pkgdb/mod.rs` clears it on a drop without commit. -/
def Sys.dropTxn (sys : Sys) : Sys := { sys with lock := false }

/-- `Database::commit` from `src/mqpkg/src/pkgdb/mod.rs`:
`self.state()?.save(&fs)?; self.state = None; drop(txn)`.  The transaction
is consumed by value, so on every exit path — including the early `?`
returns — it is dropped and the lock released. -/
def Sys.commit (parse : YamlParser) (w : WriteOutcome) (sys : Sys) :
    Except DBError Unit × Sys :=
  match sys.stateFn parse with
  | .error e => (.error e, sys.dropTxn)
  | .ok (st, sys1) =>
    match st.save w sys1.fs with
    | (.error e, fs') => (.error e, ({ sys1 with fs := fs' }).dropTxn)
    | (.ok _, fs') =>
      let sys2 : Sys := { db := { sys1.db with state := none }, fs := fs', lock := sys1.lock }
      (.ok (), sys2.dropTxn)

/-- `MQPkg::install` from `src/mqpkg/src/lib.rs`: adds each package of the
slice in order via `self.add(package)?` (which forwards to `Database::add`,
its error wrapped transparently), returning on the first error. -/
def MQPkg.install (parse : YamlParser) (packages : List PackageSpecifier)
    (sys : Sys) : Except DBError Unit × Sys :=
  match packages with
  | [] => (.ok (), sys)
  | p :: rest =>
    match sys.add parse p with
    | .error e => (.error e, sys)
    | .ok sys' => MQPkg.install parse rest sys'

/-! ## Repository fetcher and candidate aggregator
    (`src/mqpkg/src/repository.rs`) -/

/-- `semver::Version`: inert to the claims here beyond equality. -/
structure Version where
  major : Nat
  minor : Nat
  patch : Nat
deriving DecidableEq, Repr

/-- A repository entry of `config::Repository` (the `config` module is not
under `src/`; per spec §6 an entry is a name and a URL).  The URL is
embedded by the two observations `Repository::fetch` makes of it:
`url.scheme()` and `url.to_file_path()` (the latter is `none` exactly when
the conversion to a local path fails). -/
structure ConfigRepository where
  name : List Nat
  scheme : List Nat
  toFilePath : Option (List Nat)
deriving DecidableEq, Repr

/-- Generic association-list lookup, the embedding of `HashMap::get` /
`IndexMap::get` (iteration order is irrelevant to lookup). -/
def alookup {β α : Type} [DecidableEq β] (m : List (β × α)) (k : β) : Option α :=
  match m with
  | [] => none
  | (k', v') :: rest => if k' = k then some v' else alookup rest k

/-- `Release` from `src/mqpkg/src/repository.rs`: only the `dependencies`
map matters downstream; `_urls` and `_digests` are deserialized but never
read, so they are dropped here. -/
structure Release where
  dependencies : List (PackageName × VersionReq)
deriving DecidableEq, Repr

/-- `RepoData` from `src/mqpkg/src/repository.rs`: the `packages` map
package-name → version → release.  `_meta` is never read and is dropped.
The HashMaps are embedded as association lists whose iteration order is
arbitrary; key uniqueness (a HashMap invariant) is a hypothesis where
needed. -/
structure RepoData where
  packages : List (PackageName × List (Version × Release))
deriving DecidableEq, Repr

/-- `RepositorySource` from `src/mqpkg/src/repository.rs`. -/
structure RepositorySource where
  repository_id : Nat
  repository : ConfigRepository
deriving DecidableEq, Repr

/-- `<RepositorySource as Source>::id`: the constant 100. -/
def RepositorySource.id (_ : RepositorySource) : Nat := 100

/-- `<RepositorySource as Source>::discriminator`: the repository's
position in the fetched-data order. -/
def RepositorySource.discriminator (s : RepositorySource) : Nat :=
  s.repository_id

/-- Modelled from the spec: the ordering on `Source` values defined in the
missing `types.rs` — §3: "Ordering between two sources is: lower kind id
wins; ties broken by lower discriminator." -/
def sourceLt (a b : RepositorySource) : Prop :=
  a.id < b.id ∨ (a.id = b.id ∧ a.discriminator < b.discriminator)

instance (a b : RepositorySource) : Decidable (sourceLt a b) := by
  unfold sourceLt; infer_instance

/-- `Candidate` from the resolver module (not under `src/`): the aggregator
uses only the constructor shape
`Candidate::new(version, source, dependency-provider)`; here the source is
always a `RepositorySource` and the provider a `StaticDependencies` built
from the release's dependency map. -/
structure Candidate where
  version : Version
  source : RepositorySource
  dependencies : List (PackageName × VersionReq)
deriving DecidableEq, Repr

/-- `Repository::candidates` from `src/mqpkg/src/repository.rs`: for each
`(idx, (repo, data))` of the fetched `IndexMap` in order, if the repository
lists the package, push one candidate per listed `(version, release)`,
whose source is `RepositorySource::new(idx, repo)`.  (`u64::try_from(idx)`
cannot fail for a list index and is embedded as the identity.) -/
def candidates (data : List (ConfigRepository × RepoData))
    (package : PackageName) : List Candidate :=
  (data.enum).flatMap (fun p =>
    match alookup p.2.2.packages package with
    | none => []
    | some versions =>
      versions.map (fun vr => ⟨vr.1, ⟨p.1, p.2.1⟩, vr.2.dependencies⟩))

/-- The scheme string `"file"`. -/
def fileScheme : List Nat := [102, 105, 108, 101]

/-- Outcome of the HTTP branch
`client.get(url).send()?.error_for_status()?.json()?` for one repository,
as an oracle: transport failure in `send`, non-success status from
`error_for_status`, body that fails to decode as `RepoData`, or success. -/
inductive HttpOutcome where
  | sendErr : HttpOutcome
  | statusErr : HttpOutcome
  | decodeErr : HttpOutcome
  | ok (data : RepoData) : HttpOutcome
deriving DecidableEq, Repr

/-- Modelled from the spec: `RepositoryError` lives in `errors.rs`, which
is not under `src/`.  Spec §4.3/§7: "network/transport error, non-success
HTTP status, malformed JSON, invalid URL — each is a distinct error
surfaced to the caller"; `IOError` is the conversion of the
`std::io::Error` of `File::open`.  Payloads dropped. -/
inductive RepositoryError where
  | IOError : RepositoryError
  | JSONError : RepositoryError
  | TransportError : RepositoryError
  | HTTPStatusError : RepositoryError
deriving DecidableEq, Repr

/-- Oracle for the filesystem and HTTP environment `Repository::fetch` runs
against: local file reads, `serde_json` parsing, and the HTTP exchange. -/
structure FetchEnv where
  readFile : List Nat → Except Unit (List Nat)
  parseJson : List Nat → Except Unit RepoData
  http : ConfigRepository → HttpOutcome

/-- The body of the fetch loop for one repository, from
`src/mqpkg/src/repository.rs` lines 70–83.  `none` embeds a panic: for a
`file`-scheme URL the code runs `repo.url.to_file_path().unwrap()`, which
panics when the URL cannot be converted to a local path.  Every other
failure is a typed error. -/
def fetchRepo (env : FetchEnv) (repo : ConfigRepository) :
    Option (Except RepositoryError RepoData) :=
  if repo.scheme = fileScheme then
    match repo.toFilePath with
    | none => none
    | some p =>
      match env.readFile p with
      | .error _ => some (.error .IOError)
      | .ok s =>
        match env.parseJson s with
        | .error _ => some (.error .JSONError)
        | .ok d => some (.ok d)
  else
    match env.http repo with
    | .sendErr => some (.error .TransportError)
    | .statusErr => some (.error .HTTPStatusError)
    | .decodeErr => some (.error .JSONError)
    | .ok d => some (.ok d)

/-- `indexmap::IndexMap::insert`: an existing key keeps its position and
gets the new value; a new key is appended at the end. -/
def indexMapInsert (m : List (ConfigRepository × RepoData))
    (k : ConfigRepository) (v : RepoData) :
    List (ConfigRepository × RepoData) :=
  match m with
  | [] => [(k, v)]
  | (k', v') :: rest =>
    if k' = k then (k, v) :: rest else (k', v') :: indexMapInsert rest k v

/-- The `for repo in repos.iter()` loop of `Repository::fetch`, threading
the accumulated `self.data`.  A panic (`none`) or an error from any
repository ends the loop; on success the document is inserted and the
progress callback (inert, no data flow) fires. -/
def fetchLoop (env : FetchEnv) (repos : List ConfigRepository)
    (acc : List (ConfigRepository × RepoData)) :
    Option (Except RepositoryError (List (ConfigRepository × RepoData))) :=
  match repos with
  | [] => some (.ok acc)
  | r :: rest =>
    match fetchRepo env r with
    | none => none
    | some (.error e) => some (.error e)
    | some (.ok d) => fetchLoop env rest (indexMapInsert acc r d)

/-- `Repository::fetch` from `src/mqpkg/src/repository.rs`, started from
the empty `data` map of `Repository::new`. -/
def fetch (env : FetchEnv) (repos : List ConfigRepository) :
    Option (Except RepositoryError (List (ConfigRepository × RepoData))) :=
  fetchLoop env repos []

/-! ## Lemmas about the character primitives -/

theorem toAsciiLowercase_alpha {c : Nat} (h : isAsciiAlphabetic c = true) :
    isAsciiAlphabetic (toAsciiLowercase c) = true := by
  simp only [isAsciiAlphabetic, Bool.or_eq_true, Bool.and_eq_true,
    decide_eq_true_eq] at h ⊢
  by_cases hc : 65 ≤ c ∧ c ≤ 90
  · have h1 : toAsciiLowercase c = c + 32 := if_pos hc
    rw [h1]; omega
  · have h1 : toAsciiLowercase c = c := if_neg hc
    rw [h1]; omega

theorem toAsciiLowercase_alnum {c : Nat} (h : isAsciiAlphanumeric c = true) :
    isAsciiAlphanumeric (toAsciiLowercase c) = true := by
  simp only [isAsciiAlphanumeric, isAsciiAlphabetic, Bool.or_eq_true,
    Bool.and_eq_true, decide_eq_true_eq] at h ⊢
  by_cases hc : 65 ≤ c ∧ c ≤ 90
  · have h1 : toAsciiLowercase c = c + 32 := if_pos hc
    rw [h1]; omega
  · have h1 : toAsciiLowercase c = c := if_neg hc
    rw [h1]; omega

theorem toAsciiLowercase_idem (c : Nat) :
    toAsciiLowercase (toAsciiLowercase c) = toAsciiLowercase c := by
  by_cases hc : 65 ≤ c ∧ c ≤ 90
  · have h1 : toAsciiLowercase c = c + 32 := if_pos hc
    have h2 : toAsciiLowercase (c + 32) = c + 32 := if_neg (by omega)
    rw [h1, h2]
  · have h1 : toAsciiLowercase c = c := if_neg hc
    rw [h1, h1]

theorem isAsciiAlphanumeric_ascii {c : Nat} (h : isAsciiAlphanumeric c = true) :
    c < 128 := by
  simp only [isAsciiAlphanumeric, isAsciiAlphabetic, Bool.or_eq_true,
    Bool.and_eq_true, decide_eq_true_eq] at h
  omega

/-- Characterization of successful `PackageName` parsing: the input starts
with an ASCII-alphabetic character, every character is ASCII-alphanumeric,
and the result is the ASCII-lowercased input. -/
theorem fromStr_ok_iff (x : List Nat) (n : PackageName) :
    PackageName.fromStr x = Except.ok n ↔
      startsWith isAsciiAlphabetic x = true ∧
      (∀ c ∈ x, isAsciiAlphanumeric c = true) ∧
      n = ⟨strToAsciiLowercase x⟩ := by
  constructor
  · intro hx
    unfold PackageName.fromStr at hx
    rcases hb : startsWith isAsciiAlphabetic x with _ | _
    · rw [hb] at hx
      cases hh : x.head? <;> simp [hh] at hx
    · rw [hb] at hx
      simp only [Bool.not_true, if_neg] at hx
      cases hf : x.find? (fun c => !(isAsciiAlphanumeric c)) <;> simp [hf] at hx
      refine ⟨rfl, ?_, ?_⟩
      · intro c hc
        have := List.find?_eq_none.mp hf c hc
        simpa using this
      · cases n
        simpa [PackageName.mk.injEq] using hx.symm
  · rintro ⟨h1, h2, rfl⟩
    unfold PackageName.fromStr
    rw [h1]
    have hf : x.find? (fun c => !(isAsciiAlphanumeric c)) = none := by
      rw [List.find?_eq_none]
      intro c hc
      simp [h2 c hc]
    simp [hf]

/-- Parsing the ASCII-lowercased form of an input that parses successfully
succeeds and returns that same lowercased string. -/
theorem fromStr_lowered (x : List Nat)
    (h1 : startsWith isAsciiAlphabetic x = true)
    (h2 : ∀ c ∈ x, isAsciiAlphanumeric c = true) :
    PackageName.fromStr (strToAsciiLowercase x) =
      Except.ok ⟨strToAsciiLowercase x⟩ := by
  rw [fromStr_ok_iff]
  refine ⟨?_, ?_, ?_⟩
  · cases x with
    | nil => cases h1
    | cons c rest =>
      have : isAsciiAlphabetic c = true := by simpa [startsWith] using h1
      simpa [startsWith, strToAsciiLowercase] using toAsciiLowercase_alpha this
  · intro c hc
    obtain ⟨c0, hc0, rfl⟩ := List.mem_map.mp hc
    exact toAsciiLowercase_alnum (h2 c0 hc0)
  · have hidem : ∀ a : Nat, toAsciiLowercase (toAsciiLowercase a) = toAsciiLowercase a :=
      toAsciiLowercase_idem
    have : strToAsciiLowercase (strToAsciiLowercase x) = strToAsciiLowercase x := by
      simp [strToAsciiLowercase, List.map_map, Function.comp_def, hidem]
    rw [this]

/-- C8: for every string `x` on which `PackageName` parsing succeeds with
result `n`, parsing the lowercased form of `x` also yields `n`, and parsing
the identifier stored inside `n` yields `n` again.  The `lowercase`
parameter stands for Rust's Unicode `str::to_lowercase`; the hypothesis
`hlow` records the fact that Unicode lowercasing of an all-ASCII string is
character-wise ASCII lowercasing — and every successfully parsed input is
all-ASCII. -/
theorem c8_lowercase_idempotent
    (lowercase : List Nat → List Nat)
    (hlow : ∀ s : List Nat, (∀ c ∈ s, c < 128) → lowercase s = strToAsciiLowercase s)
    (x : List Nat) (n : PackageName)
    (hx : PackageName.fromStr x = Except.ok n) :
    PackageName.fromStr (lowercase x) = Except.ok n ∧
    PackageName.fromStr n.name = Except.ok n := by
  obtain ⟨h1, h2, rfl⟩ := (fromStr_ok_iff x n).mp hx
  have hascii : ∀ c ∈ x, c < 128 := fun c hc => isAsciiAlphanumeric_ascii (h2 c hc)
  have key := fromStr_lowered x h1 h2
  exact ⟨by rw [hlow x hascii]; exact key, key⟩

/-- Witness for C8 at the concrete input `"Ab"`. -/
theorem c8_witness :
    PackageName.fromStr (strToAsciiLowercase [65, 98]) =
      Except.ok ⟨[97, 98]⟩ ∧
    PackageName.fromStr (PackageName.mk [97, 98]).name =
      Except.ok ⟨[97, 98]⟩ :=
  c8_lowercase_idempotent strToAsciiLowercase (fun _ _ => rfl) [65, 98]
    ⟨[97, 98]⟩ (by rfl)

/-- C9: parsing the empty string fails with `TooShort`, and parsing any
non-empty string whose first character is not ASCII-alphabetic fails with
`NoStartingAlpha` carrying exactly that first character. -/
theorem c9_tooShort_noStartingAlpha (c : Nat) (rest : List Nat)
    (h : isAsciiAlphabetic c = false) :
    PackageName.fromStr [] = Except.error .TooShort ∧
    PackageName.fromStr (c :: rest) =
      Except.error (.NoStartingAlpha (c :: rest) [c]) := by
  refine ⟨rfl, ?_⟩
  unfold PackageName.fromStr
  simp [startsWith, h]

/-- Witness for C9 at the concrete input `"1a"` (first character `'1'`). -/
theorem c9_witness :
    PackageName.fromStr [] = Except.error .TooShort ∧
    PackageName.fromStr [49, 97] =
      Except.error (.NoStartingAlpha [49, 97] [49]) :=
  c9_tooShort_noStartingAlpha 49 [97] (by decide)

/-! ## Lemmas about the database state machine -/

theorem ensureDir_pkgdbDir (fs : VFS) : (ensureDir fs).pkgdbDir = true := by
  unfold ensureDir
  split <;> simp_all

/-- A successful `Database::state` access changes neither the filesystem
nor the lock (it only fills the in-memory cache). -/
theorem stateFn_fs_lock (parse : YamlParser) (sys : Sys) (st : State)
    (sys' : Sys) (h : Sys.stateFn parse sys = .ok (st, sys')) :
    sys'.fs = sys.fs ∧ sys'.lock = sys.lock := by
  unfold Sys.stateFn at h
  split at h
  · cases hl : State.load parse sys.fs <;> rw [hl] at h <;> cases h
    exact ⟨rfl, rfl⟩
  · cases hs : sys.db.state <;> rw [hs] at h <;> cases h
    exact ⟨rfl, rfl⟩

/-- A successful `Database::add` changes neither the filesystem nor the
lock. -/
theorem add_fs_lock (parse : YamlParser) (p : PackageSpecifier) (sys sys' : Sys)
    (h : Sys.add parse p sys = .ok sys') :
    sys'.fs = sys.fs ∧ sys'.lock = sys.lock := by
  unfold Sys.add at h
  cases hf : Sys.stateFn parse sys with
  | error e => rw [hf] at h; cases h
  | ok v =>
    rw [hf] at h
    cases h
    exact stateFn_fs_lock parse sys v.1 v.2 hf

/-- A sequence of `Database::add` calls inside one transaction, threading
the system state; a failing call leaves the system as it was (the mutable
borrow ends with the error). -/
def runAdds (parse : YamlParser) (pkgs : List PackageSpecifier) (sys : Sys) :
    Sys :=
  match pkgs with
  | [] => sys
  | p :: rest =>
    match sys.add parse p with
    | .error _ => runAdds parse rest sys
    | .ok sys' => runAdds parse rest sys'

theorem runAdds_fs_lock (parse : YamlParser) (pkgs : List PackageSpecifier)
    (sys : Sys) :
    (runAdds parse pkgs sys).fs = sys.fs ∧
    (runAdds parse pkgs sys).lock = sys.lock := by
  induction pkgs generalizing sys with
  | nil => exact ⟨rfl, rfl⟩
  | cons p rest ih =>
    unfold runAdds
    cases ha : sys.add parse p with
    | error e => exact ih sys
    | ok sys' =>
      have h1 := add_fs_lock parse p sys sys' ha
      have h2 := ih sys'
      exact ⟨h2.1.trans h1.1, h2.2.trans h1.2⟩

/-- C1: the claim states that every state-accessing operation without an
active transaction fails with `DBError::NoTransaction`, in every reachable
state — including after a transaction that was begun, mutated the state,
and was dropped without commit.  The code violates exactly that reachable
state: `Database::state` keeps the in-memory cache in the `Database` (not
the transaction), `commit` clears it, but a drop without commit does not,
so a subsequent `requested()` with no active transaction returns the stale
mutated map instead of `Err(DBError::NoTransaction)`.  This theorem
evaluates the trace begin → add("a") → drop-without-commit → requested()
from a fresh database. -/
theorem c1_requested_after_uncommitted_drop :
    Sys.begin ⟨⟨[100], none⟩, ⟨false, .absent⟩, false⟩ =
      .ok ⟨⟨[100], none⟩, ⟨false, .absent⟩, true⟩ ∧
    Sys.add (fun _ => .error ()) ⟨⟨[97]⟩, [42]⟩
        ⟨⟨[100], none⟩, ⟨false, .absent⟩, true⟩ =
      .ok ⟨⟨[100], some ⟨[(⟨[97]⟩, ⟨⟨[97]⟩, [42]⟩)]⟩⟩, ⟨false, .absent⟩, true⟩ ∧
    Sys.dropTxn ⟨⟨[100], some ⟨[(⟨[97]⟩, ⟨⟨[97]⟩, [42]⟩)]⟩⟩, ⟨false, .absent⟩, true⟩ =
      ⟨⟨[100], some ⟨[(⟨[97]⟩, ⟨⟨[97]⟩, [42]⟩)]⟩⟩, ⟨false, .absent⟩, false⟩ ∧
    Sys.requested (fun _ => .error ())
        ⟨⟨[100], some ⟨[(⟨[97]⟩, ⟨⟨[97]⟩, [42]⟩)]⟩⟩, ⟨false, .absent⟩, false⟩ =
      .ok ([(⟨[97]⟩, ⟨⟨[97]⟩, [42]⟩)],
        ⟨⟨[100], some ⟨[(⟨[97]⟩, ⟨⟨[97]⟩, [42]⟩)]⟩⟩, ⟨false, .absent⟩, false⟩) ∧
    Sys.requested (fun _ => .error ())
        ⟨⟨[100], some ⟨[(⟨[97]⟩, ⟨⟨[97]⟩, [42]⟩)]⟩⟩, ⟨false, .absent⟩, false⟩ ≠
      .error .NoTransaction := by
  refine ⟨rfl, rfl, rfl, rfl, fun h => ?_⟩
  exact Except.noConfusion h

/-- C2, counterexample: commit a transaction whose serialization fails
after writing nothing, against a prior on-disk state file with content
`"x"`.  `State::save` opens the state file with `create_file` (truncating
it) before serializing, so the failed commit leaves the file truncated to
the written prefix — the prior on-disk content is destroyed, refuting the
"prior on-disk state file content is left unchanged" part of the claim. -/
theorem c2_counterexample :
    Sys.commit (fun _ => .error ()) (.failedAfter [])
        ⟨⟨[100], some ⟨[]⟩⟩, ⟨true, .content [120]⟩, true⟩ =
      (.error .InvalidState,
        ⟨⟨[100], some ⟨[]⟩⟩, ⟨true, .content []⟩, false⟩) ∧
    FileStatus.content ([] : List Nat) ≠ FileStatus.content [120] := by
  exact ⟨rfl, by decide⟩

/-- C2 as amended: `commit` writes the in-memory State to disk, creating
the `pkgdb` directory if absent, and then releases the lock; if the write
fails, the lock is still released, but because `create_file` truncates the
state file in place before `serde_yaml::to_writer` runs, the file is left
holding exactly the partial prefix that was written — the prior on-disk
content is not preserved. -/
theorem c2_amended (parse : YamlParser) (sys : Sys) (st : State)
    (_hlock : sys.lock = true) (hst : sys.db.state = some st) :
    (∀ s, ∃ sys', Sys.commit parse (.complete s) sys = (.ok (), sys') ∧
      sys'.fs.stateFile = .content s ∧ sys'.fs.pkgdbDir = true ∧
      sys'.lock = false ∧ sys'.db.state = none) ∧
    (∀ p, ∃ sys', Sys.commit parse (.failedAfter p) sys =
        (.error .InvalidState, sys') ∧
      sys'.lock = false ∧ sys'.fs.pkgdbDir = true ∧
      sys'.fs.stateFile = .content p) := by
  have hfn : Sys.stateFn parse sys = .ok (st, sys) := by
    unfold Sys.stateFn
    rw [if_neg (by simp [hst]), hst]
  constructor
  · intro s
    unfold Sys.commit
    rw [hfn]
    unfold State.save
    refine ⟨_, rfl, rfl, ?_, rfl, rfl⟩
    exact ensureDir_pkgdbDir sys.fs
  · intro p
    unfold Sys.commit
    rw [hfn]
    unfold State.save
    refine ⟨_, rfl, rfl, ?_, rfl⟩
    exact ensureDir_pkgdbDir sys.fs

/-- Witness for the amended C2 at a concrete system with the lock held, a
cached empty state, and no `pkgdb` directory yet. -/
theorem c2_witness :
    (∀ s, ∃ sys', Sys.commit (fun _ => .error ()) (.complete s)
        ⟨⟨[100], some ⟨[]⟩⟩, ⟨false, .absent⟩, true⟩ = (.ok (), sys') ∧
      sys'.fs.stateFile = .content s ∧ sys'.fs.pkgdbDir = true ∧
      sys'.lock = false ∧ sys'.db.state = none) ∧
    (∀ p, ∃ sys', Sys.commit (fun _ => .error ()) (.failedAfter p)
        ⟨⟨[100], some ⟨[]⟩⟩, ⟨false, .absent⟩, true⟩ =
        (.error .InvalidState, sys') ∧
      sys'.lock = false ∧ sys'.fs.pkgdbDir = true ∧
      sys'.fs.stateFile = .content p) :=
  c2_amended (fun _ => .error ()) ⟨⟨[100], some ⟨[]⟩⟩, ⟨false, .absent⟩, true⟩
    ⟨[]⟩ rfl rfl

/-- C4: a transaction that begins, performs any sequence of `add`
mutations, and is dropped without commit leaves the filesystem — in
particular the persisted state file — byte-for-byte unchanged, and
releases the lock, so a subsequent `begin` succeeds.  The lock behavior of
`begin`/drop is modelled from the spec (`pkgdb/transactions.rs` is not
under `src/`); that `add` never touches the filesystem is proved from
`pkgdb/mod.rs`, where only `commit` calls `State::save`. -/
theorem c4_uncommitted_transaction_frame (parse : YamlParser) (sys : Sys)
    (pkgs : List PackageSpecifier) (hlock : sys.lock = false) :
    ∃ sys1, Sys.begin sys = .ok sys1 ∧
      (Sys.dropTxn (runAdds parse pkgs sys1)).fs = sys.fs ∧
      (Sys.dropTxn (runAdds parse pkgs sys1)).lock = false ∧
      ∃ sys2, Sys.begin (Sys.dropTxn (runAdds parse pkgs sys1)) = .ok sys2 := by
  have hb : Sys.begin sys = .ok { sys with lock := true } := by
    unfold Sys.begin
    rw [if_neg (by simp [hlock])]
  refine ⟨{ sys with lock := true }, hb, ?_, ?_, ?_⟩
  · exact (runAdds_fs_lock parse pkgs { sys with lock := true }).1
  · rfl
  · refine ⟨{ Sys.dropTxn (runAdds parse pkgs { sys with lock := true })
        with lock := true }, ?_⟩
    unfold Sys.begin
    rw [if_neg (by simp [Sys.dropTxn])]

/-- Witness for C4 at a concrete unlocked system and a one-element add
list. -/
theorem c4_witness :
    ∃ sys1, Sys.begin ⟨⟨[100], none⟩, ⟨false, .absent⟩, false⟩ = .ok sys1 ∧
      (Sys.dropTxn (runAdds (fun _ => .error ()) [⟨⟨[97]⟩, [42]⟩] sys1)).fs =
        (⟨false, .absent⟩ : VFS) ∧
      (Sys.dropTxn (runAdds (fun _ => .error ()) [⟨⟨[97]⟩, [42]⟩] sys1)).lock =
        false ∧
      ∃ sys2, Sys.begin
          (Sys.dropTxn (runAdds (fun _ => .error ()) [⟨⟨[97]⟩, [42]⟩] sys1)) =
        .ok sys2 :=
  c4_uncommitted_transaction_frame (fun _ => .error ())
    ⟨⟨[100], none⟩, ⟨false, .absent⟩, false⟩ [⟨⟨[97]⟩, [42]⟩] rfl

/-- C7, counterexample: a state file that exists but cannot be opened
(`is_file()` is true, `open_file()` errors).  `State::load` maps only the
`serde_yaml` deserialization failure to `DBError::InvalidState`; the open
failure propagates through `?` as the filesystem-error conversion of the
`VfsError` — necessarily a different variant, since `InvalidState`'s
payload is a `serde_yaml::Error`.  So "present but unreadable" does not
fail with `InvalidState`, refuting that part of the claim. -/
theorem c7_counterexample :
    State.load (fun _ => .error ()) ⟨true, .unreadable⟩ =
      .error .FsError ∧
    DBError.FsError ≠ DBError.InvalidState := by
  exact ⟨rfl, by decide⟩

/-- C7 as amended: if the state file is absent, loading succeeds with the
empty requested set (not an error); if the file is present but corrupt
(deserialization fails), loading fails with `InvalidState`; if the file is
present but unreadable (opening fails), loading fails with the distinct
filesystem error.  Either present-file failure is distinct from the
absent case, which is no error at all. -/
theorem c7_amended (parse : YamlParser) (dir : Bool) (s : List Nat)
    (hs : parse s = .error ()) :
    State.load parse ⟨dir, .absent⟩ = .ok ⟨[]⟩ ∧
    State.load parse ⟨dir, .content s⟩ = .error .InvalidState ∧
    State.load parse ⟨dir, .unreadable⟩ = .error .FsError ∧
    DBError.FsError ≠ DBError.InvalidState := by
  refine ⟨rfl, ?_, rfl, by decide⟩
  simp [State.load, hs]

/-- Witness for the amended C7 with a parser rejecting every document. -/
theorem c7_witness :
    State.load (fun _ => .error ()) ⟨false, .absent⟩ = .ok ⟨[]⟩ ∧
    State.load (fun _ => .error ()) ⟨false, .content []⟩ =
      .error .InvalidState ∧
    State.load (fun _ => .error ()) ⟨false, .unreadable⟩ =
      .error .FsError ∧
    DBError.FsError ≠ DBError.InvalidState :=
  c7_amended (fun _ => .error ()) false [] rfl

/-- C10: `MQPkg::install` adds the given packages one at a time in slice
order and returns the first error immediately: if the adds of `done` all
succeed (producing `sysd`) and the add of `p` then fails with `e`, the
whole install of `done ++ p :: rest` returns `e` with the system left at
`sysd` — the earlier additions are kept, not rolled back, and the
packages in `rest` are never attempted (`rest` is arbitrary). -/
theorem c10_install_first_error (parse : YamlParser) (sys sysd : Sys)
    (done : List PackageSpecifier) (p : PackageSpecifier)
    (rest : List PackageSpecifier) (e : DBError)
    (hdone : MQPkg.install parse done sys = (.ok (), sysd))
    (hp : Sys.add parse p sysd = .error e) :
    MQPkg.install parse (done ++ p :: rest) sys = (.error e, sysd) := by
  induction done generalizing sys with
  | nil =>
    unfold MQPkg.install at hdone
    cases hdone
    simp only [List.nil_append, MQPkg.install]
    rw [hp]
  | cons q qs ih =>
    simp only [List.cons_append, MQPkg.install] at hdone ⊢
    cases ha : Sys.add parse q sys with
    | error e' => rw [ha] at hdone; cases hdone
    | ok sys' =>
      rw [ha] at hdone
      exact ih sys' hdone

/-- Witness for C10: from a system with no active transaction the very
first add fails with `NoTransaction`; the remaining package is never
attempted and the system is returned unchanged. -/
theorem c10_witness :
    MQPkg.install (fun _ => .error ())
        ([] ++ ⟨⟨[97]⟩, [42]⟩ :: [⟨⟨[98]⟩, [42]⟩])
        ⟨⟨[100], none⟩, ⟨false, .absent⟩, false⟩ =
      (.error .NoTransaction, ⟨⟨[100], none⟩, ⟨false, .absent⟩, false⟩) :=
  c10_install_first_error (fun _ => .error ()) _ _ [] ⟨⟨[97]⟩, [42]⟩
    [⟨⟨[98]⟩, [42]⟩] .NoTransaction rfl rfl

/-! ## Lemmas about the candidate aggregator -/

/-- The candidate list produced from `data`, with repository indices
starting at `n`: the recursion-friendly form of `candidates`. -/
def candidatesFrom (n : Nat) (data : List (ConfigRepository × RepoData))
    (package : PackageName) : List Candidate :=
  match data with
  | [] => []
  | e :: rest =>
    (match alookup e.2.packages package with
     | none => []
     | some versions =>
       versions.map (fun vr => ⟨vr.1, ⟨n, e.1⟩, vr.2.dependencies⟩))
    ++ candidatesFrom (n + 1) rest package

theorem candidatesFrom_eq (n : Nat) (data : List (ConfigRepository × RepoData))
    (package : PackageName) :
    (List.enumFrom n data).flatMap (fun p =>
      match alookup p.2.2.packages package with
      | none => []
      | some versions =>
        versions.map (fun vr => ⟨vr.1, ⟨p.1, p.2.1⟩, vr.2.dependencies⟩)) =
    candidatesFrom n data package := by
  induction data generalizing n with
  | nil => rfl
  | cons e rest ih =>
    rw [List.enumFrom_cons, List.flatMap_cons, candidatesFrom]
    rw [ih (n + 1)]

theorem candidates_eq_candidatesFrom (data : List (ConfigRepository × RepoData))
    (package : PackageName) :
    candidates data package = candidatesFrom 0 data package :=
  candidatesFrom_eq 0 data package

/-- Membership in the indexed candidate list: a candidate is exactly a
listed `(version, release)` of the package in the repository at some index
`i` of `data`, carrying source `⟨n + i, repository⟩`. -/
theorem mem_candidatesFrom (n : Nat) (data : List (ConfigRepository × RepoData))
    (package : PackageName) (c : Candidate) :
    c ∈ candidatesFrom n data package ↔
      ∃ i e vs vr, data.get? i = some e ∧
        alookup e.2.packages package = some vs ∧ vr ∈ vs ∧
        c = ⟨vr.1, ⟨n + i, e.1⟩, vr.2.dependencies⟩ := by
  induction data generalizing n with
  | nil =>
    simp [candidatesFrom]
  | cons e rest ih =>
    rw [candidatesFrom, List.mem_append]
    constructor
    · intro h
      rcases h with h | h
      · cases hl : alookup e.2.packages package with
        | none => rw [hl] at h; cases h
        | some vs =>
          rw [hl] at h
          obtain ⟨vr, hvr, rfl⟩ := List.mem_map.mp h
          exact ⟨0, e, vs, vr, rfl, hl, hvr, by simp⟩
      · obtain ⟨i, e', vs, vr, hget, hl, hvr, rfl⟩ := (ih (n + 1)).mp h
        exact ⟨i + 1, e', vs, vr, by simpa using hget, hl, hvr, by
          simp [Nat.add_comm, Nat.add_assoc, Nat.add_left_comm]⟩
    · rintro ⟨i, e', vs, vr, hget, hl, hvr, rfl⟩
      cases i with
      | zero =>
        left
        simp only [List.get?_cons_zero, Option.some.injEq] at hget
        subst hget
        rw [hl]
        exact List.mem_map.mpr ⟨vr, hvr, by simp⟩
      | succ i =>
        right
        refine (ih (n + 1)).mpr ⟨i, e', vs, vr, by simpa using hget, hl, hvr, ?_⟩
        simp [Nat.add_comm, Nat.add_assoc, Nat.add_left_comm]

theorem candidatesFrom_discr_lb (n : Nat)
    (data : List (ConfigRepository × RepoData)) (package : PackageName) :
    ∀ c ∈ candidatesFrom n data package, n ≤ c.source.discriminator := by
  intro c hc
  obtain ⟨i, e, vs, vr, _, _, _, rfl⟩ :=
    (mem_candidatesFrom n data package c).mp hc
  exact Nat.le_add_right n i

theorem candidatesFrom_block_discr (n : Nat) (e : ConfigRepository × RepoData)
    (package : PackageName) (c : Candidate)
    (hc : c ∈ (match alookup e.2.packages package with
      | none => ([] : List Candidate)
      | some versions =>
        versions.map (fun vr : Version × Release =>
          (⟨vr.1, ⟨n, e.1⟩, vr.2.dependencies⟩ : Candidate)))) :
    c.source.discriminator = n ∧ c.source.repository = e.1 := by
  cases hl : alookup e.2.packages package with
  | none => rw [hl] at hc; cases hc
  | some vs =>
    rw [hl] at hc
    obtain ⟨vr, _, rfl⟩ := List.mem_map.mp hc
    exact ⟨rfl, rfl⟩

theorem pairwise_discr_le_of_const (l : List Candidate) (n : Nat)
    (h : ∀ c ∈ l, c.source.discriminator = n) :
    l.Pairwise (fun a b => a.source.discriminator ≤ b.source.discriminator) := by
  induction l with
  | nil => exact List.Pairwise.nil
  | cons c cs ih =>
    refine List.Pairwise.cons ?_ (ih fun x hx => h x (List.mem_cons_of_mem _ hx))
    intro b hb
    rw [h c (List.mem_cons_self _ _), h b (List.mem_cons_of_mem _ hb)]

/-- The candidate list is sorted by repository index: the discriminators
are nondecreasing along the list, i.e. every candidate of an
earlier-positioned repository appears before any candidate of a
later-positioned one. -/
theorem candidatesFrom_pairwise (n : Nat)
    (data : List (ConfigRepository × RepoData)) (package : PackageName) :
    (candidatesFrom n data package).Pairwise
      (fun a b => a.source.discriminator ≤ b.source.discriminator) := by
  induction data generalizing n with
  | nil => exact List.Pairwise.nil
  | cons e rest ih =>
    rw [candidatesFrom, List.pairwise_append]
    refine ⟨?_, ih (n + 1), ?_⟩
    · exact pairwise_discr_le_of_const _ n
        (fun c hc => (candidatesFrom_block_discr n e package c hc).1)
    · intro a ha b hb
      have h1 := (candidatesFrom_block_discr n e package a ha).1
      have h2 := candidatesFrom_discr_lb (n + 1) rest package b hb
      omega

/-- The `(repository, version)` identity of a candidate. -/
def pairOf (c : Candidate) : ConfigRepository × Version :=
  (c.source.repository, c.version)

theorem candidatesFrom_repo_mem (n : Nat)
    (data : List (ConfigRepository × RepoData)) (package : PackageName) :
    ∀ c ∈ candidatesFrom n data package,
      c.source.repository ∈ data.map Prod.fst := by
  intro c hc
  obtain ⟨i, e, vs, vr, hget, _, _, rfl⟩ :=
    (mem_candidatesFrom n data package c).mp hc
  exact List.mem_map.mpr ⟨e, List.get?_mem hget, rfl⟩

/-- With unique repository keys (an `IndexMap` invariant) and unique
version keys per package (a `HashMap` invariant), no two candidates share
a `(repository, version)` pair. -/
theorem candidatesFrom_pairs_nodup (n : Nat)
    (data : List (ConfigRepository × RepoData)) (package : PackageName)
    (hrepo : (data.map Prod.fst).Nodup)
    (hver : ∀ e ∈ data, ∀ vs, alookup e.2.packages package = some vs →
      (vs.map Prod.fst).Nodup) :
    ((candidatesFrom n data package).map pairOf).Nodup := by
  induction data generalizing n with
  | nil => simp [candidatesFrom]
  | cons e rest ih =>
    rw [candidatesFrom, List.map_append, List.nodup_append]
    rw [List.map_cons, List.nodup_cons] at hrepo
    refine ⟨?_, ?_, ?_⟩
    · cases hl : alookup e.2.packages package with
      | none => simp
      | some vs =>
        rw [List.map_map]
        have hv := hver e (List.mem_cons_self _ _) vs hl
        have : (vs.map (pairOf ∘ fun vr =>
            (⟨vr.1, ⟨n, e.1⟩, vr.2.dependencies⟩ : Candidate))) =
            (vs.map Prod.fst).map (fun v => (e.1, v)) := by
          rw [List.map_map]
          rfl
        rw [this]
        exact hv.map (fun a b hab => by
          simpa using congrArg Prod.snd hab)
    · exact ih (n + 1) hrepo.2
        (fun x hx => hver x (List.mem_cons_of_mem _ hx))
    · intro x hx hx'
      obtain ⟨a, ha, rfl⟩ := List.mem_map.mp hx
      obtain ⟨b, hb, hba⟩ := List.mem_map.mp hx'
      have h1 := (candidatesFrom_block_discr n e package a ha).2
      have h2 := candidatesFrom_repo_mem (n + 1) rest package b hb
      have h3 : b.source.repository = a.source.repository :=
        congrArg Prod.fst hba
      rw [h3, h1] at h2
      exact hrepo.1 h2

/-- C5: over any ordered list of fetched repository documents with the map
invariants (unique repository keys, unique version keys), `candidates`
returns exactly one candidate per `(repository, version)` pair where that
repository lists the package — the pair list is duplicate-free and a pair
occurs iff the repository lists that version of the package — and all
candidates of an earlier repository appear before any candidate of a later
one (the discriminators, which equal the repository positions, are
nondecreasing along the output). -/
theorem c5_one_candidate_per_pair_in_repo_order
    (data : List (ConfigRepository × RepoData)) (package : PackageName)
    (hrepo : (data.map Prod.fst).Nodup)
    (hver : ∀ e ∈ data, ∀ vs, alookup e.2.packages package = some vs →
      (vs.map Prod.fst).Nodup) :
    ((candidates data package).map pairOf).Nodup ∧
    (∀ r v, (r, v) ∈ (candidates data package).map pairOf ↔
      ∃ d vs, (r, d) ∈ data ∧ alookup d.packages package = some vs ∧
        v ∈ vs.map Prod.fst) ∧
    (candidates data package).Pairwise
      (fun a b => a.source.discriminator ≤ b.source.discriminator) := by
  rw [candidates_eq_candidatesFrom]
  refine ⟨candidatesFrom_pairs_nodup 0 data package hrepo hver, ?_,
    candidatesFrom_pairwise 0 data package⟩
  intro r v
  constructor
  · intro h
    obtain ⟨c, hc, hpair⟩ := List.mem_map.mp h
    obtain ⟨i, e, vs, vr, hget, hl, hvr, rfl⟩ :=
      (mem_candidatesFrom 0 data package c).mp hc
    obtain ⟨hr, hv⟩ := Prod.mk.injEq .. ▸ hpair
    refine ⟨e.2, vs, ?_, hl, ?_⟩
    · have : e ∈ data := List.get?_mem hget
      rwa [show (r, e.2) = e from Prod.ext hr.symm rfl]
    · exact hv ▸ List.mem_map.mpr ⟨vr, hvr, rfl⟩
  · rintro ⟨d, vs, hd, hl, hv⟩
    obtain ⟨i, hget⟩ := List.get?_of_mem hd
    obtain ⟨vr, hvr, hv1⟩ := List.mem_map.mp hv
    refine List.mem_map.mpr ⟨⟨vr.1, ⟨0 + i, r⟩, vr.2.dependencies⟩, ?_, ?_⟩
    · exact (mem_candidatesFrom 0 data package _).mpr
        ⟨i, (r, d), vs, vr, hget, hl, hvr, rfl⟩
    · simpa [pairOf] using hv1

/-- Concrete fetched data for witnesses: repository `"1"` lists version
1.0.0 of package `"a"`; repository `"2"` lists nothing. -/
def dataW : List (ConfigRepository × RepoData) :=
  [(⟨[49], [104], none⟩, ⟨[(⟨[97]⟩, [(⟨1, 0, 0⟩, ⟨[]⟩)])]⟩),
   (⟨[50], [104], none⟩, ⟨[]⟩)]

/-- Witness for C5: two repositories, the first listing version 1.0.0 of
package `"a"`, the second listing nothing. -/
theorem c5_witness :
    ((candidates dataW ⟨[97]⟩).map pairOf).Nodup ∧
    (∀ r v, (r, v) ∈ (candidates dataW ⟨[97]⟩).map pairOf ↔
      ∃ d vs, (r, d) ∈ dataW ∧
        alookup d.packages ⟨[97]⟩ = some vs ∧ v ∈ vs.map Prod.fst) ∧
    (candidates dataW ⟨[97]⟩).Pairwise
      (fun a b => a.source.discriminator ≤ b.source.discriminator) :=
  c5_one_candidate_per_pair_in_repo_order dataW ⟨[97]⟩ (by decide)
    (by
      intro e he vs hl
      simp only [dataW, List.mem_cons, List.not_mem_nil, or_false] at he
      rcases he with rfl | rfl <;> simp [alookup] at hl
      subst hl
      decide)

/-! ## Lemmas about the repository fetcher -/

theorem fetchRepo_ne_none (env : FetchEnv) (r : ConfigRepository)
    (h : r.scheme = fileScheme → r.toFilePath ≠ none) :
    fetchRepo env r ≠ none := by
  unfold fetchRepo
  by_cases hs : r.scheme = fileScheme
  · rw [if_pos hs]
    cases hf : r.toFilePath with
    | none => exact absurd hf (h hs)
    | some p =>
      cases h1 : env.readFile p with
      | error e => simp [h1]
      | ok s => cases h2 : env.parseJson s <;> simp [h1, h2]
  · rw [if_neg hs]
    cases env.http r <;> simp

theorem fetchLoop_ne_none (env : FetchEnv) (repos : List ConfigRepository)
    (h : ∀ r ∈ repos, r.scheme = fileScheme → r.toFilePath ≠ none) :
    ∀ acc, fetchLoop env repos acc ≠ none := by
  induction repos with
  | nil => intro acc h'; cases h'
  | cons r rest ih =>
    intro acc
    simp only [fetchLoop]
    cases hr : fetchRepo env r with
    | none => exact absurd hr (fetchRepo_ne_none env r (h r (List.mem_cons_self _ _)))
    | some res =>
      cases res with
      | error e => simp
      | ok d => exact ih (fun x hx => h x (List.mem_cons_of_mem _ hx)) _

theorem fetchLoop_abort (env : FetchEnv) (pre : List ConfigRepository)
    (bad : ConfigRepository) (post : List ConfigRepository)
    (e : RepositoryError)
    (hpre : ∀ r ∈ pre, ∃ d, fetchRepo env r = some (.ok d))
    (hbad : fetchRepo env bad = some (.error e)) :
    ∀ acc, fetchLoop env (pre ++ bad :: post) acc = some (.error e) := by
  induction pre with
  | nil =>
    intro acc
    rw [List.nil_append]
    simp only [fetchLoop]
    rw [hbad]
  | cons r rs ih =>
    intro acc
    obtain ⟨d, hd⟩ := hpre r (List.mem_cons_self _ _)
    rw [List.cons_append]
    simp only [fetchLoop]
    rw [hd]
    exact ih (fun x hx => hpre x (List.mem_cons_of_mem _ hx)) _

/-- C3, counterexample: a single configured `file`-scheme repository whose
URL cannot be converted to a local path (`Url::to_file_path` fails, e.g. a
`file://` URL with a non-local host).  `Repository::fetch` runs
`repo.url.to_file_path().unwrap()` and panics (`none` in the embedding)
instead of returning a typed error, refuting the "never a panic" part of
the claim. -/
theorem c3_counterexample :
    fetch ⟨fun _ => .error (), fun _ => .error (), fun _ => .sendErr⟩
      [⟨[114], fileScheme, none⟩] = none := rfl

/-- C3 as amended: provided every configured `file`-scheme URL converts to
a local path, `Repository::fetch` never panics; each failure mode — local
IO error, malformed JSON, transport error on `send`, non-success HTTP
status — surfaces as its own typed error; and the first failure aborts the
loop: with every repository before `bad` fetching successfully and `bad`
failing, the result is `bad`'s error no matter what comes after
(`post` is universally quantified, so no later repository is fetched). -/
theorem c3_fetch_errors_abort (env : FetchEnv) :
    (∀ repos, (∀ r ∈ repos, r.scheme = fileScheme → r.toFilePath ≠ none) →
      fetch env repos ≠ none) ∧
    (∀ r p, r.scheme = fileScheme → r.toFilePath = some p →
      (env.readFile p = .error () → fetchRepo env r = some (.error .IOError)) ∧
      (∀ s, env.readFile p = .ok s → env.parseJson s = .error () →
        fetchRepo env r = some (.error .JSONError))) ∧
    (∀ r, r.scheme ≠ fileScheme →
      (env.http r = .sendErr →
        fetchRepo env r = some (.error .TransportError)) ∧
      (env.http r = .statusErr →
        fetchRepo env r = some (.error .HTTPStatusError)) ∧
      (env.http r = .decodeErr →
        fetchRepo env r = some (.error .JSONError))) ∧
    (∀ pre bad post e,
      (∀ r ∈ pre, ∃ d, fetchRepo env r = some (.ok d)) →
      fetchRepo env bad = some (.error e) →
      fetch env (pre ++ bad :: post) = some (.error e)) := by
  refine ⟨?_, ?_, ?_, ?_⟩
  · intro repos h
    exact fetchLoop_ne_none env repos h []
  · intro r p hs hp
    constructor
    · intro hrf
      simp [fetchRepo, hs, hp, hrf]
    · intro s hrf hj
      simp [fetchRepo, hs, hp, hrf, hj]
  · intro r hs
    refine ⟨?_, ?_, ?_⟩ <;> intro hh <;> simp [fetchRepo, hs, hh]
  · intro pre bad post e hpre hbad
    exact fetchLoop_abort env pre bad post e hpre hbad []

/-- Witness for the amended C3: three HTTP repositories where the first
fetch succeeds and the second hits a non-success status — fetch returns
the status error and the third repository is never reached. -/
theorem c3_witness :
    fetch ⟨fun _ => .error (), fun _ => .error (),
        fun r => if r.name = [49] then .ok ⟨[]⟩ else .statusErr⟩
      ([⟨[49], [104], none⟩] ++ ⟨[50], [104], none⟩ :: [⟨[51], [104], none⟩]) =
      some (.error .HTTPStatusError) :=
  (c3_fetch_errors_abort _).2.2.2 [⟨[49], [104], none⟩] ⟨[50], [104], none⟩
    [⟨[51], [104], none⟩] .HTTPStatusError
    (by
      intro r hr
      simp only [List.mem_cons, List.not_mem_nil, or_false] at hr
      subst hr
      exact ⟨⟨[]⟩, rfl⟩)
    rfl

theorem indexMapInsert_append (m : List (ConfigRepository × RepoData))
    (k : ConfigRepository) (v : RepoData) (h : k ∉ m.map Prod.fst) :
    indexMapInsert m k v = m ++ [(k, v)] := by
  induction m with
  | nil => rfl
  | cons e rest ih =>
    simp only [List.map_cons, List.mem_cons, not_or] at h
    rw [indexMapInsert, if_neg (fun hk => h.1 hk.symm), ih h.2]
    simp

/-- A successful fetch over duplicate-free configured repositories
produces a data map whose key sequence is exactly the configured
repository list, in order. -/
theorem fetchLoop_keys (env : FetchEnv) (repos : List ConfigRepository)
    (hnodup : repos.Nodup) :
    ∀ acc result, (∀ r ∈ repos, r ∉ acc.map Prod.fst) →
      fetchLoop env repos acc = some (.ok result) →
      result.map Prod.fst = acc.map Prod.fst ++ repos := by
  induction repos with
  | nil =>
    intro acc result _ hres
    simp only [fetchLoop, Option.some.injEq, Except.ok.injEq] at hres
    subst hres
    simp
  | cons r rest ih =>
    intro acc result h hres
    simp only [fetchLoop] at hres
    cases hr : fetchRepo env r with
    | none => rw [hr] at hres; cases hres
    | some res =>
      rw [hr] at hres
      cases res with
      | error e => cases hres
      | ok d =>
        have hk : r ∉ acc.map Prod.fst := h r (List.mem_cons_self _ _)
        have hres2 : fetchLoop env rest (indexMapInsert acc r d) =
            some (.ok result) := hres
        rw [indexMapInsert_append acc r d hk] at hres2
        rw [List.nodup_cons] at hnodup
        have harg : ∀ x ∈ rest, x ∉ (acc ++ [(r, d)]).map Prod.fst := by
          intro x hx
          rw [List.map_append, List.mem_append]
          rintro (hx1 | hx2)
          · exact h x (List.mem_cons_of_mem _ hx) hx1
          · simp only [List.map_cons, List.map_nil, List.mem_singleton] at hx2
            exact hnodup.1 (hx2 ▸ hx)
        have := ih hnodup.2 (acc ++ [(r, d)]) result harg hres2
        rw [this, List.map_append]
        simp

theorem fetch_keys (env : FetchEnv) (repos : List ConfigRepository)
    (result : List (ConfigRepository × RepoData)) (hnodup : repos.Nodup)
    (h : fetch env repos = some (.ok result)) :
    result.map Prod.fst = repos := by
  have := fetchLoop_keys env repos hnodup [] result (by simp) h
  simpa using this

/-- C6: every candidate produced by `Repository::candidates` carries a
source with the repository kind id 100, and its discriminator is the
zero-based position of the originating repository in the configured order:
for data produced by a successful fetch over duplicate-free configured
repositories, indexing the configured list at the discriminator returns
exactly the candidate's repository.  Consequently the Source ordering
(lower kind id wins, ties broken by lower discriminator; modelled from the
spec, `types.rs` being absent) coincides with discriminator order — i.e.
configuration order — among repository-sourced candidates. -/
theorem c6_source_id_discriminator (env : FetchEnv)
    (repos : List ConfigRepository)
    (result : List (ConfigRepository × RepoData)) (package : PackageName)
    (hnodup : repos.Nodup) (hfetch : fetch env repos = some (.ok result)) :
    (∀ c ∈ candidates result package,
      c.source.id = 100 ∧
      repos.get? c.source.discriminator = some c.source.repository) ∧
    (∀ s t : RepositorySource,
      sourceLt s t ↔ s.discriminator < t.discriminator) := by
  have hkeys : result.map Prod.fst = repos :=
    fetch_keys env repos result hnodup hfetch
  constructor
  · intro c hc
    rw [candidates_eq_candidatesFrom] at hc
    obtain ⟨i, e, vs, vr, hget, _, _, rfl⟩ :=
      (mem_candidatesFrom 0 result package c).mp hc
    refine ⟨rfl, ?_⟩
    have hmap : (result.map Prod.fst).get? i = some e.1 := by
      rw [List.get?_map, hget]
      rfl
    rw [hkeys] at hmap
    simpa [RepositorySource.discriminator] using hmap
  · intro s t
    unfold sourceLt RepositorySource.id
    constructor
    · rintro (h | ⟨_, h⟩)
      · omega
      · exact h
    · intro h
      exact Or.inr ⟨rfl, h⟩

/-- Witness for C6: one HTTP repository listing version 1.0.0 of package
`"a"`; its lone candidate has source id 100 and discriminator 0, pointing
back at position 0 of the configured list. -/
theorem c6_witness :
    (∀ c ∈ candidates [(⟨[49], [104], none⟩,
        ⟨[(⟨[97]⟩, [(⟨1, 0, 0⟩, ⟨[]⟩)])]⟩)] ⟨[97]⟩,
      c.source.id = 100 ∧
      ([⟨[49], [104], none⟩] : List ConfigRepository).get?
          c.source.discriminator = some c.source.repository) ∧
    (∀ s t : RepositorySource,
      sourceLt s t ↔ s.discriminator < t.discriminator) :=
  c6_source_id_discriminator
    ⟨fun _ => .error (), fun _ => .error (),
      fun _ => .ok ⟨[(⟨[97]⟩, [(⟨1, 0, 0⟩, ⟨[]⟩)])]⟩⟩
    [⟨[49], [104], none⟩]
    [(⟨[49], [104], none⟩, ⟨[(⟨[97]⟩, [(⟨1, 0, 0⟩, ⟨[]⟩)])]⟩)] ⟨[97]⟩
    (by simp) rfl

end Mqpkg
